import Mathlib

/-!
Shallow embedding of the error-code extraction pipeline
(`external/scripts/parse_error_codes.py`) and of the extraction validator
(`external/scripts/validate_extraction.py`).

Text is modelled as `List Char` (Python `str`).  The fixed regular
expressions of the source are hand-compiled into deterministic scanning
functions; where a pattern needs backtracking (greedy `\s*` followed by an
optional separator and a trailing group), the backtracking priority order of
the Python `re` engine is implemented explicitly (longest `\s*` first,
optional element present before absent, and a final line-bounded group).
Character classes use their ASCII meaning, matching the ASCII inputs the
script is designed for.
-/

/-- Python `\s` on ASCII text: space, tab, newline, carriage return,
vertical tab, form feed. -/
def pyIsSpace (c : Char) : Bool :=
  c == ' ' || c == '\t' || c == '\n' || c == '\r' || c == '\x0b' || c == '\x0c'

/-- Python `\w` on ASCII text: letters, digits and underscore. -/
def pyIsWord (c : Char) : Bool :=
  c.isAlpha || c.isDigit || c == '_'

/-- Length of the maximal prefix of `l` whose characters satisfy `p`
(the amount a greedy character-class repetition consumes). -/
def runLen (p : Char → Bool) (l : List Char) : Nat :=
  (l.takeWhile p).length

/-- Greedy `\s*` / `\s+` run length. -/
def wsRun (l : List Char) : Nat := runLen pyIsSpace l

/-- Greedy `\d+` run length. -/
def digitRun (l : List Char) : Nat := runLen Char.isDigit l

/-- `int()` of a run of decimal digits. -/
def natOfDigits (l : List Char) : Nat :=
  l.foldl (fun a c => 10 * a + (c.toNat - 48)) 0

/-- Python slice `content[a:b]` (for `a ≤ b`). -/
def sliceCh (full : List Char) (a b : Nat) : List Char :=
  (full.take b).drop a

/-- `str.strip()`: drop ASCII whitespace from both ends. -/
def pstrip (l : List Char) : List Char :=
  ((l.dropWhile pyIsSpace).reverse.dropWhile pyIsSpace).reverse

/-- Worker for `collapseWS`; the flag records whether the previous input
character was part of a whitespace run already replaced by one space. -/
def collapseWSAux : Bool → List Char → List Char
  | _, [] => []
  | inRun, c :: cs =>
    if pyIsSpace c then
      if inRun then collapseWSAux true cs
      else ' ' :: collapseWSAux true cs
    else c :: collapseWSAux false cs

/-- `re.sub(r'\s+', ' ', s)`: every maximal whitespace run becomes one
single space. -/
def collapseWS (cs : List Char) : List Char :=
  collapseWSAux false cs

/-- `re.sub(r'\s+', ' ', s).strip()` — the normalization that
`StataErrorCode.__post_init__` applies to `name` and `description`. -/
def normWSStr (s : String) : String :=
  String.mk (pstrip (collapseWS s.data))

/-- Worker for `pySplit`, accumulating the current word reversed. -/
def pySplitAux : List Char → List Char → List (List Char)
  | [], acc => if acc = [] then [] else [acc.reverse]
  | c :: cs, acc =>
    if pyIsSpace c then
      if acc = [] then pySplitAux cs []
      else acc.reverse :: pySplitAux cs []
    else pySplitAux cs (c :: acc)

/-- Python `str.split()` with no argument: maximal non-whitespace chunks,
no empty words. -/
def pySplit (l : List Char) : List (List Char) :=
  pySplitAux l []

/-- `' '.join(words)`. -/
def joinSpace : List (List Char) → List Char
  | [] => []
  | [w] => w
  | w :: ws => w ++ ' ' :: joinSpace ws

/-- Worker for `splitLines`, accumulating the current line reversed. -/
def splitLinesAux : List Char → List Char → List (List Char)
  | [], acc => [acc.reverse]
  | c :: cs, acc =>
    if c == '\n' then acc.reverse :: splitLinesAux cs []
    else splitLinesAux cs (c :: acc)

/-- Split on `'\n'` (Python `str.split('\n')` shape, keeping empty lines). -/
def splitLines (cs : List Char) : List (List Char) :=
  splitLinesAux cs []

/-- `'\n'.join(lines)`. -/
def joinLines : List (List Char) → List Char
  | [] => []
  | [w] => w
  | w :: ws => w ++ '\n' :: joinLines ws

/-- A line matched entirely by `---+`: three or more dashes. -/
def isDashLine (l : List Char) : Bool :=
  3 ≤ l.length && l.all (fun c => c == '-')

/-- `re.sub(r'^---+$', '', description, flags=re.MULTILINE)`: separator
lines are blanked (the newlines stay, as in the source). -/
def stripDashLines (cs : List Char) : List Char :=
  joinLines ((splitLines cs).map (fun l => if isDashLine l then [] else l))

/-- Digit character for `natRepr`. -/
def digitCh (n : Nat) : Char := Char.ofNat (48 + n)

/-- Fuelled decimal printer. -/
def natReprAux : Nat → Nat → List Char
  | 0, _ => []
  | f + 1, n =>
    if n < 10 then [digitCh n]
    else natReprAux f (n / 10) ++ [digitCh (n % 10)]

/-- Decimal representation of a natural number (Python `str(n)`). -/
def natRepr (n : Nat) : List Char := natReprAux (n + 1) n

/-- `StataErrorCode._assign_category` (parse_error_codes.py lines 47-78):
category from the code via the fixed closed ranges of the source. -/
def assignCategory (code : Nat) : String :=
  if 1 ≤ code ∧ code ≤ 99 then "General"
  else if 100 ≤ code ∧ code ≤ 199 then "Syntax/Command"
  else if 300 ≤ code ∧ code ≤ 399 then "Previously stored result"
  else if 400 ≤ code ∧ code ≤ 499 then "Statistical problems"
  else if 500 ≤ code ∧ code ≤ 599 then "Matrix manipulation"
  else if 600 ≤ code ∧ code ≤ 699 then "File I/O"
  else if 700 ≤ code ∧ code ≤ 799 then "Operating system"
  else if 900 ≤ code ∧ code ≤ 999 then "Memory/Resources"
  else if 1000 ≤ code ∧ code ≤ 1999 then "System limits"
  else if 2000 ≤ code ∧ code ≤ 2999 then "Non-errors (continuation)"
  else if 3000 ≤ code ∧ code ≤ 3999 then "Mata runtime"
  else if 4000 ≤ code ∧ code ≤ 4999 then "Class system"
  else if 7100 ≤ code ∧ code ≤ 7199 then "Python runtime"
  else if 9000 ≤ code ∧ code ≤ 9999 then "System failure"
  else "Other"

/-- The interval table behind `_assign_category`, in source order:
closed intervals with their labels. -/
def categoryIntervals : List (Nat × Nat × String) :=
  [(1, 99, "General"), (100, 199, "Syntax/Command"),
   (300, 399, "Previously stored result"), (400, 499, "Statistical problems"),
   (500, 599, "Matrix manipulation"), (600, 699, "File I/O"),
   (700, 799, "Operating system"), (900, 999, "Memory/Resources"),
   (1000, 1999, "System limits"), (2000, 2999, "Non-errors (continuation)"),
   (3000, 3999, "Mata runtime"), (4000, 4999, "Class system"),
   (7100, 7199, "Python runtime"), (9000, 9999, "System failure")]

/-- First-match lookup in an interval table, defaulting to "Other". -/
def lookupCat : List (Nat × Nat × String) → Nat → String
  | [], _ => "Other"
  | (lo, hi, lab) :: rest, n =>
    if lo ≤ n ∧ n ≤ hi then lab else lookupCat rest n

/-- The record type of `parse_error_codes.py` (dataclass `StataErrorCode`),
fields in source order.  `category` is always a string after
`__post_init__` (assigned from the code when constructed with `None`). -/
structure StataErrorCode where
  code : Nat
  name : String
  description : String
  category : String
  references : Option (List String)
  stata_version : String
deriving DecidableEq

/-- Dataclass construction followed by `__post_init__`
(parse_error_codes.py lines 36-45): `name` and `description` are
whitespace-normalized, and `category`, when passed as `None`, is assigned
by `_assign_category`. -/
def mkStataErrorCode (code : Nat) (name description : String)
    (category : Option String) (references : Option (List String)) :
    StataErrorCode :=
  { code := code
    name := normWSStr name
    description := normWSStr description
    category :=
      match category with
      | some c => c
      | none => assignCategory code
    references := references
    stata_version := "18" }

/-- The trailing group `(.+?)$` of a MULTILINE pattern at the current
position: the lazy dot-plus expands exactly to the end of the current line
(`.` cannot cross `'\n'`, and `$` first holds there); it needs at least one
character.  Returns the group and the number of characters consumed. -/
def groupToEol (l : List Char) : Option (List Char × Nat) :=
  let g := l.takeWhile (fun c => !(c == '\n'))
  if g = [] then none else some (g, g.length)

/-- Backtracking for `\s*(.+?)$`: the greedy `\s*` tries `k` characters
first, then gives back one at a time. -/
def wsGroupTry (l : List Char) : Nat → Option (List Char × Nat)
  | 0 => groupToEol l
  | k + 1 =>
    match groupToEol (l.drop (k + 1)) with
    | some g => some (g.1, k + 1 + g.2)
    | none => wsGroupTry l k

/-- `\s*(.+?)$` at the current position (greedy whitespace, longest
first, then the line-bounded group). -/
def wsStarGroup (l : List Char) : Option (List Char × Nat) :=
  wsGroupTry l (wsRun l)

/-- Backtracking for `\s+(.+?)$`: like `wsGroupTry` but the whitespace
must keep at least one character. -/
def wsGroupTryPos (l : List Char) : Nat → Option (List Char × Nat)
  | 0 => none
  | k + 1 =>
    match groupToEol (l.drop (k + 1)) with
    | some g => some (g.1, k + 1 + g.2)
    | none => wsGroupTryPos l k

/-- `\s+(.+?)$` at the current position. -/
def wsPlusGroup (l : List Char) : Option (List Char × Nat) :=
  wsGroupTryPos l (wsRun l)

/-- The optional separator of the header pattern: one of `-`, `–`, `—`
followed by `\s*(.+?)$`. -/
def hdrDashTail (l : List Char) : Option (List Char × Nat) :=
  match l with
  | c :: rest =>
    if c == '-' || c == '–' || c == '—' then
      (wsStarGroup rest).map (fun g => (g.1, 1 + g.2))
    else none
  | [] => none

/-- Backtracking for the header tail `\s*[-–—]?\s*(.+?)$`: the first
`\s*` tries `k` characters, longest first; for each, the optional dash is
tried present before absent. -/
def headerTailTry (l : List Char) : Nat → Option (List Char × Nat)
  | 0 =>
    (match hdrDashTail l with
     | some g => some g
     | none => wsStarGroup l)
  | k + 1 =>
    (match hdrDashTail (l.drop (k + 1)) with
     | some g => some (g.1, k + 1 + g.2)
     | none =>
       match wsStarGroup (l.drop (k + 1)) with
       | some g => some (g.1, k + 1 + g.2)
       | none => headerTailTry l k)

/-- `\s*[-–—]?\s*(.+?)$` at the current position. -/
def headerTail (l : List Char) : Option (List Char × Nat) :=
  headerTailTry l (wsRun l)

/-- One attempt of the header pattern
`^##\s+r\((\d+)\)\s*[-–—]?\s*(.+?)$` (MULTILINE) at a line-start
position; returns `(code, name-group, match length)`. -/
def headerAttempt (l : List Char) : Option (Nat × List Char × Nat) :=
  match l with
  | '#' :: '#' :: r1 =>
    let w := wsRun r1
    if w = 0 then none else
    match r1.drop w with
    | 'r' :: '(' :: r2 =>
      let d := digitRun r2
      if d = 0 then none else
      match r2.drop d with
      | ')' :: r3 =>
        (match headerTail r3 with
         | some (g, c) => some (natOfDigits (r2.take d), g, 2 + w + 2 + d + 1 + c)
         | none => none)
      | _ => none
    | _ => none
  | _ => none

/-- MULTILINE `^`: position 0 or just after a `'\n'`. -/
def lineStart (full : List Char) (p : Nat) : Bool :=
  p = 0 || sliceCh full (p - 1) p = ['\n']

/-- `re.finditer` for the header pattern: scan every position left to
right, matches are non-overlapping, and each hit stores
`(code, raw name, match.end())` exactly as the source keeps
`start_pos = match.end()` (parse_error_codes.py line 113). -/
def scanHeadersAux (full : List Char) : Nat → Nat → List (Nat × List Char × Nat)
  | 0, _ => []
  | fuel + 1, p =>
    if full.length < p then [] else
    if lineStart full p then
      match headerAttempt (full.drop p) with
      | some (code, name, len) =>
        (code, name, p + len) :: scanHeadersAux full fuel (p + len)
      | none => scanHeadersAux full fuel (p + 1)
    else scanHeadersAux full fuel (p + 1)

/-- All header matches of the input. -/
def scanHeaders (full : List Char) : List (Nat × List Char × Nat) :=
  scanHeadersAux full (full.length + 2) 0

/-- Cleanup of a header section scope (parse_error_codes.py lines
125-129): strip, blank separator lines, then `' '.join(split())`. -/
def hdrClean (raw : List Char) : List Char :=
  joinSpace (pySplit (stripDashLines (pstrip raw)))

/-- One record of the header strategy (lines 131-135): empty cleaned
scope falls back to the sentinel description. -/
def sec1Record (code : Nat) (name : List Char) (scope : List Char) :
    StataErrorCode :=
  let d := hdrClean scope
  mkStataErrorCode code (String.mk name)
    (if d = [] then "No description available" else String.mk d) none none

/-- Walk the header sections; each scope runs from this header's
`match.end()` to the next stored position (the source's
`sections[i + 1][2]`, line 121) or to the end of the input. -/
def sectionsToRecords (full : List Char) :
    List (Nat × List Char × Nat) → List StataErrorCode
  | [] => []
  | (code, name, s) :: rest =>
    let e :=
      match rest with
      | (_, _, s2) :: _ => s2
      | [] => full.length
    sec1Record code name (sliceCh full s e) :: sectionsToRecords full rest

/-- Strategy 1: header-segmented form (parse_error_codes.py lines
105-135). -/
def strategy1 (full : List Char) : List StataErrorCode :=
  sectionsToRecords full (scanHeaders full)

/-- One attempt of the table pattern
`\|\s*(\d+)\s*\|\s*([^|]+?)\s*\|\s*([^|]+?)\s*\|` at a position.  A cell
`\s*([^|]+?)\s*\|` matches exactly when the text up to the next `|` is
non-empty; since the source immediately strips the captured group, each
cell is modelled by its raw run of non-`|` characters (packed/stripped by
the caller).  Returns `(code, name cell, description cell, match length)`. -/
def tableAttempt (l : List Char) : Option (Nat × List Char × List Char × Nat) :=
  match l with
  | '|' :: r1 =>
    let w1 := wsRun r1
    let d := digitRun (r1.drop w1)
    if d = 0 then none else
    let afterD := r1.drop (w1 + d)
    let w2 := wsRun afterD
    match afterD.drop w2 with
    | '|' :: r2 =>
      let c2 := r2.takeWhile (fun c => !(c == '|'))
      if c2 = [] then none else
      match r2.drop c2.length with
      | '|' :: r3 =>
        let c3 := r3.takeWhile (fun c => !(c == '|'))
        if c3 = [] then none else
        match r3.drop c3.length with
        | '|' :: _ =>
          some (natOfDigits ((r1.drop w1).take d), c2, c3,
            1 + w1 + d + w2 + 1 + c2.length + 1 + c3.length + 1)
        | _ => none
      | _ => none
    | _ => none
  | _ => none

/-- `re.finditer` for the table pattern. -/
def scanTableAux (full : List Char) : Nat → Nat → List (Nat × List Char × List Char × Nat)
  | 0, _ => []
  | fuel + 1, p =>
    if full.length < p then [] else
    match tableAttempt (full.drop p) with
    | some m => m :: scanTableAux full fuel (p + m.2.2.2)
    | none => scanTableAux full fuel (p + 1)

/-- All table matches of the input. -/
def scanTable (full : List Char) : List (Nat × List Char × List Char × Nat) :=
  scanTableAux full (full.length + 2) 0

/-- Strategy 2: tabular form (parse_error_codes.py lines 137-149); name
and description are the stripped cell groups. -/
def strategy2 (full : List Char) : List StataErrorCode :=
  (scanTable full).map (fun m =>
    mkStataErrorCode m.1 (String.mk (pstrip m.2.1))
      (String.mk (pstrip m.2.2.1)) none none)

/-- One attempt of the numbered-list pattern `^\s*(\d+)\.\s+(.+?)$`
(MULTILINE) at a line-start position; returns
`(code, first-line group, match length)`. -/
def numberedAttempt (l : List Char) : Option (Nat × List Char × Nat) :=
  let w := wsRun l
  let d := digitRun (l.drop w)
  if d = 0 then none else
  match l.drop (w + d) with
  | '.' :: r2 =>
    (match wsPlusGroup r2 with
     | some (g, c) => some (natOfDigits ((l.drop w).take d), g, w + d + 1 + c)
     | none => none)
  | _ => none

/-- `re.finditer` for the numbered-list pattern; each hit is
`(match.start(), match.end(), code, first-line group)`. -/
def scanNumberedAux (full : List Char) : Nat → Nat → List (Nat × Nat × Nat × List Char)
  | 0, _ => []
  | fuel + 1, p =>
    if full.length < p then [] else
    if lineStart full p then
      match numberedAttempt (full.drop p) with
      | some (code, g, len) =>
        (p, p + len, code, g) :: scanNumberedAux full fuel (p + len)
      | none => scanNumberedAux full fuel (p + 1)
    else scanNumberedAux full fuel (p + 1)

/-- All numbered-list matches of the input. -/
def scanNumbered (full : List Char) : List (Nat × Nat × Nat × List Char) :=
  scanNumberedAux full (full.length + 2) 0

/-- `re.match(r'^\s*\d+\.', continuation)` (parse_error_codes.py line
173): optional whitespace, at least one digit, then a period. -/
def startsNumbered (cont : List Char) : Bool :=
  let w := wsRun cont
  let d := digitRun (cont.drop w)
  !(d = 0) && (cont.drop (w + d)).take 1 = ['.']

/-- `re.match(r'^([^.]+\.)', s)` (line 187): a non-empty greedy run of
non-period characters followed by a period, anchored at the start. -/
def firstSentence (l : List Char) : Option (List Char) :=
  let pre := l.takeWhile (fun c => !(c == '.'))
  if pre = [] then none
  else
    match l.drop pre.length with
    | c :: _ => if c = '.' then some (pre ++ ['.']) else none
    | [] => none

/-- Name derivation of the numbered-list strategy (parse_error_codes.py
lines 176-190): collapse whitespace, take the part before a newline,
strip; a candidate over 100 characters falls back to its first sentence,
or to its first 80 characters when the sentence pattern does not match. -/
def deriveName (dfl : List Char) : List Char :=
  let clean := collapseWS dfl
  let candidate := pstrip (clean.takeWhile (fun c => !(c == '\n')))
  if 100 < candidate.length then
    match firstSentence candidate with
    | some s => pstrip s
    | none => candidate.take 80
  else candidate

/-- Characters admitted by `[\w\s-]` in the cross-reference pattern. -/
def isRefSectChar (c : Char) : Bool :=
  pyIsWord c || pyIsSpace c || c == '-'

/-- One attempt of the cross-reference pattern
`\[([A-Z]+)\]\s+([\d\.]+(?:\s+[a-zA-Z][\w\s-]*)?|[a-zA-Z][\w\s-]+)`
(line 194) at a position; the numeric alternative is tried first, its
optional trailing word is taken whenever whitespace and a letter follow.
Returns `(manual group, locator group, match length)`. -/
def refAttempt (l : List Char) : Option (List Char × List Char × Nat) :=
  match l with
  | '[' :: r1 =>
    let u := runLen Char.isUpper r1
    if u = 0 then none else
    match r1.drop u with
    | ']' :: r2 =>
      let w := wsRun r2
      if w = 0 then none else
      let r3 := r2.drop w
      let dd := runLen (fun c => c.isDigit || c == '.') r3
      if dd = 0 then
        match r3 with
        | c :: r4 =>
          if c.isAlpha then
            let t := runLen isRefSectChar r4
            if t = 0 then none
            else some (r1.take u, c :: r4.take t, 1 + u + 1 + w + 1 + t)
          else none
        | [] => none
      else
        let r4 := r3.drop dd
        let w2 := wsRun r4
        match r4.drop w2 with
        | c :: r5 =>
          if !(w2 = 0) && c.isAlpha then
            let t := runLen isRefSectChar r5
            some (r1.take u, r3.take dd ++ r4.take w2 ++ c :: r5.take t,
              1 + u + 1 + w + dd + w2 + 1 + t)
          else some (r1.take u, r3.take dd, 1 + u + 1 + w + dd)
        | [] => some (r1.take u, r3.take dd, 1 + u + 1 + w + dd)
    | _ => none
  | _ => none

/-- `re.findall` for the cross-reference pattern. -/
def scanRefsAux (full : List Char) : Nat → Nat → List (List Char × List Char)
  | 0, _ => []
  | fuel + 1, p =>
    if full.length < p then [] else
    match refAttempt (full.drop p) with
    | some (m, s, len) => (m, s) :: scanRefsAux full fuel (p + len)
    | none => scanRefsAux full fuel (p + 1)

/-- All cross-reference matches of a description. -/
def scanRefs (full : List Char) : List (List Char × List Char) :=
  scanRefsAux full (full.length + 2) 0

/-- Maximal `\w+` run length. -/
def wordRun (l : List Char) : Nat := runLen pyIsWord l

/-- `re.sub(r'(\w+)-\s+(\w+)', r'\1\2', s)` (line 205): heal hyphenation
artifacts by joining the two word runs and dropping hyphen and
whitespace; the scan is leftmost, non-overlapping, and resumes after each
replacement. -/
def hyphenFixAux : Nat → List Char → List Char
  | 0, l => l
  | _ + 1, [] => []
  | fuel + 1, c :: cs =>
    if pyIsWord c then
      let w1 := wordRun (c :: cs)
      let rest1 := (c :: cs).drop w1
      match rest1 with
      | '-' :: r2 =>
        let s := wsRun r2
        if s = 0 then (c :: cs).take w1 ++ '-' :: hyphenFixAux fuel r2
        else
          let r3 := r2.drop s
          let w2 := wordRun r3
          if w2 = 0 then (c :: cs).take w1 ++ '-' :: hyphenFixAux fuel r2
          else (c :: cs).take w1 ++ r3.take w2 ++ hyphenFixAux fuel (r3.drop w2)
      | _ => (c :: cs).take w1 ++ hyphenFixAux fuel rest1
    else c :: hyphenFixAux fuel cs

/-- Entry point of the hyphenation healer. -/
def hyphenFix (l : List Char) : List Char :=
  hyphenFixAux (l.length + 1) l

/-- `section_clean.rstrip('.,;:')` (line 207). -/
def rstripPunct (l : List Char) : List Char :=
  (l.reverse.dropWhile (fun c => c == '.' || c == ',' || c == ';' || c == ':')).reverse

/-- Locator cleanup (lines 201-207): strip, collapse whitespace, heal
hyphenation, strip trailing punctuation. -/
def cleanSection (s : List Char) : List Char :=
  rstripPunct (hyphenFix (collapseWS (pstrip s)))

/-- The reference keys in match order, before deduplication:
`f'[{manual}] {section_clean}'` (line 209). -/
def extractRefsRaw (full : List Char) : List String :=
  (scanRefs full).map (fun ms =>
    String.mk ('[' :: ms.1 ++ ']' :: ' ' :: cleanSection ms.2))

/-- The `seen` set loop of lines 198-212: keep a key only on its first
occurrence, preserving order. -/
def dedupStrAux (seen : List String) : List String → List String
  | [] => []
  | k :: ks =>
    if k ∈ seen then dedupStrAux seen ks
    else k :: dedupStrAux (k :: seen) ks

/-- Reference extraction for one description (lines 192-212). -/
def extractRefs (full : List Char) : List String :=
  dedupStrAux [] (extractRefsRaw full)

/-- One record of the numbered-list strategy (lines 158-219): strip the
first line, append the continuation up to the next match unless it is
empty or itself starts like a numbered item, derive the name, extract
references (an empty list becomes `None`). -/
def numRecord (full : List Char) (m : Nat × Nat × Nat × List Char)
    (nextStart : Nat) : StataErrorCode :=
  let dfl := pstrip m.2.2.2
  let cont := pstrip (sliceCh full m.2.1 nextStart)
  let fullDesc :=
    if cont = [] then dfl
    else if startsNumbered cont then dfl
    else dfl ++ ' ' :: cont
  let refs := extractRefs fullDesc
  mkStataErrorCode m.2.2.1 (String.mk (deriveName dfl))
    (String.mk fullDesc) none (if refs = [] then none else some refs)

/-- Walk the numbered-list matches, each continuation region ending at
the start of the next match (or at the end of the input). -/
def numToRecords (full : List Char) :
    List (Nat × Nat × Nat × List Char) → List StataErrorCode
  | [] => []
  | m :: rest =>
    let nextStart :=
      match rest with
      | m2 :: _ => m2.1
      | [] => full.length
    numRecord full m nextStart :: numToRecords full rest

/-- Strategy 3: numbered-list form (parse_error_codes.py lines 151-219). -/
def strategy3 (full : List Char) : List StataErrorCode :=
  numToRecords full (scanNumbered full)

/-- The optional separator of the inline pattern: `[:-]?` followed by
`\s*([^\n]+)` (the greedy group also runs to the end of the line). -/
def inlineSepTail (l : List Char) : Option (List Char × Nat) :=
  match l with
  | c :: rest =>
    if c == ':' || c == '-' then
      (wsStarGroup rest).map (fun g => (g.1, 1 + g.2))
    else none
  | [] => none

/-- Backtracking for the inline tail `\s*[:-]?\s*([^\n]+)`, same priority
order as the header tail. -/
def inlineTailTry (l : List Char) : Nat → Option (List Char × Nat)
  | 0 =>
    (match inlineSepTail l with
     | some g => some g
     | none => wsStarGroup l)
  | k + 1 =>
    (match inlineSepTail (l.drop (k + 1)) with
     | some g => some (g.1, k + 1 + g.2)
     | none =>
       match wsStarGroup (l.drop (k + 1)) with
       | some g => some (g.1, k + 1 + g.2)
       | none => inlineTailTry l k)

/-- `\s*[:-]?\s*([^\n]+)` at the current position. -/
def inlineTail (l : List Char) : Option (List Char × Nat) :=
  inlineTailTry l (wsRun l)

/-- One attempt of the inline pattern `r\((\d+)\)\s*[:-]?\s*([^\n]+)`
(line 223) at a position; returns `(code, trailing group, match length)`. -/
def inlineAttempt (l : List Char) : Option (Nat × List Char × Nat) :=
  match l with
  | 'r' :: '(' :: r1 =>
    let d := digitRun r1
    if d = 0 then none else
    match r1.drop d with
    | ')' :: r2 =>
      (match inlineTail r2 with
       | some (g, c) => some (natOfDigits (r1.take d), g, 2 + d + 1 + c)
       | none => none)
    | _ => none
  | _ => none

/-- `re.finditer` for the inline pattern. -/
def scanInlineAux (full : List Char) : Nat → Nat → List (Nat × List Char × Nat)
  | 0, _ => []
  | fuel + 1, p =>
    if full.length < p then [] else
    match inlineAttempt (full.drop p) with
    | some m => m :: scanInlineAux full fuel (p + m.2.2)
    | none => scanInlineAux full fuel (p + 1)

/-- All inline matches of the input. -/
def scanInline (full : List Char) : List (Nat × List Char × Nat) :=
  scanInlineAux full (full.length + 2) 0

/-- The name/description split of the inline strategy (lines 228-239):
split once on the first period, else once on the first hyphen, else the
whole rest is the name with an empty description. -/
def inlineSplit (rest : List Char) : List Char × List Char :=
  if rest.contains '.' then
    (pstrip (rest.takeWhile (fun c => !(c == '.'))),
     pstrip ((rest.dropWhile (fun c => !(c == '.'))).drop 1))
  else if rest.contains '-' then
    (pstrip (rest.takeWhile (fun c => !(c == '-'))),
     pstrip ((rest.dropWhile (fun c => !(c == '-'))).drop 1))
  else (rest, [])

/-- One record of the inline strategy (lines 224-245): an empty
description falls back to the name. -/
def inlineRecord (code : Nat) (g : List Char) : StataErrorCode :=
  let rest := pstrip g
  let nd := inlineSplit rest
  mkStataErrorCode code (String.mk nd.1)
    (String.mk (if nd.2 = [] then nd.1 else nd.2)) none none

/-- Strategy 4: inline form (parse_error_codes.py lines 221-245). -/
def strategy4 (full : List Char) : List StataErrorCode :=
  (scanInline full).map (fun m => inlineRecord m.1 m.2.1)

/-- The strategy chain of `parse_error_codes_markdown` before
deduplication (lines 105-245): the table branch runs only when no header
section was found, and each later strategy only when `errors` is still
empty. -/
def parseRawChars (cs : List Char) : List StataErrorCode :=
  let sections := scanHeaders cs
  let errors1 := if sections = [] then strategy2 cs else strategy1 cs
  let errors2 := if errors1 = [] then strategy3 cs else errors1
  if errors2 = [] then strategy4 cs else errors2

/-- Stable insertion of a record into a list sorted by code (ties keep
the existing element first, as Python's stable `list.sort`). -/
def insertByCode (r : StataErrorCode) : List StataErrorCode → List StataErrorCode
  | [] => [r]
  | s :: l =>
    if r.code ≤ s.code then r :: s :: l
    else s :: insertByCode r l

/-- `errors.sort(key=lambda e: e.code)` (line 248): stable sort by code. -/
def sortByCode : List StataErrorCode → List StataErrorCode
  | [] => []
  | r :: l => insertByCode r (sortByCode l)

/-- The duplicate-removal walk of lines 250-256: keep only the first
record seen for each code. -/
def dedupByCodeAux (seen : List Nat) : List StataErrorCode → List StataErrorCode
  | [] => []
  | r :: rs =>
    if r.code ∈ seen then dedupByCodeAux seen rs
    else r :: dedupByCodeAux (r.code :: seen) rs

/-- `parse_error_codes_markdown` on the already-read file content
(lines 100-258): strategy chain, stable sort by code, then first-wins
deduplication. -/
def parseErrorCodesChars (cs : List Char) : List StataErrorCode :=
  dedupByCodeAux [] (sortByCode (parseRawChars cs))

/-- `parse_error_codes_markdown`, taking the document text. -/
def parse_error_codes_markdown (s : String) : List StataErrorCode :=
  parseErrorCodesChars s.data

/-- The JSON keys that `export_to_json` (lines 307-315) emits for one
record: `asdict` field order with `None` values removed; only
`references` can be `None` after `__post_init__`. -/
def errDictKeys (r : StataErrorCode) : List String :=
  ["code", "name", "description", "category"] ++
    (match r.references with
     | none => []
     | some _ => ["references"]) ++ ["stata_version"]

/-- `REQUIRED_CODES` (validate_extraction.py lines 23-30). -/
def REQUIRED_CODES : List Nat := [1, 198, 199, 601, 603, 950]

/-- `[c for c in REQUIRED_CODES if c not in codes]` (line 55). -/
def missingRequired (codes : List Nat) : List Nat :=
  REQUIRED_CODES.filter (fun c => !(codes.contains c))

/-- `', '`-joined decimal list, the body of Python `str(list)`. -/
def reprJoin : List Nat → List Char
  | [] => []
  | [a] => natRepr a
  | a :: b :: rest => natRepr a ++ ',' :: ' ' :: reprJoin (b :: rest)

/-- Python `str` of a list of integers, e.g. `[1, 601]`. -/
def pyReprNatList (l : List Nat) : List Char :=
  '[' :: reprJoin l ++ [']']

/-- `check_required_codes` (validate_extraction.py lines 52-61): two
messages when any required code is missing, else no findings. -/
def check_required_codes (codes : List Nat) : List String :=
  let missing := missingRequired codes
  if missing = [] then []
  else
    [String.mk (("❌ Missing required error codes: ").data ++ pyReprNatList missing),
     "   These are commonly seen errors that MUST be documented"]

/-- The codes already seen earlier in the walk of `check_duplicates`
(lines 64-78); the reported set is sorted and duplicate-free. -/
def dupWalk (seen : List Nat) : List Nat → List Nat
  | [] => []
  | c :: cs =>
    if c ∈ seen then c :: dupWalk (c :: seen) cs
    else dupWalk (c :: seen) cs

/-- Stable insertion sort on naturals (Python `sorted`). -/
def insertNat (a : Nat) : List Nat → List Nat
  | [] => [a]
  | b :: l => if a ≤ b then a :: b :: l else b :: insertNat a l

/-- Python `sorted` on a list of integers. -/
def sortNat : List Nat → List Nat
  | [] => []
  | a :: l => insertNat a (sortNat l)

/-- First-occurrence deduplication on naturals (set-to-sorted-list). -/
def dedupNatAux (seen : List Nat) : List Nat → List Nat
  | [] => []
  | c :: cs =>
    if c ∈ seen then dedupNatAux seen cs
    else c :: dedupNatAux (c :: seen) cs

/-- `check_duplicates` (lines 64-78). -/
def check_duplicates (codes : List Nat) : List String :=
  let duplicates := sortNat (dedupNatAux [] (dupWalk [] codes))
  if duplicates = [] then []
  else [String.mk (("❌ Duplicate error codes found: ").data ++ pyReprNatList duplicates)]

/-- `check_descriptions` (lines 81-98) on `(code, description)` pairs:
codes whose description is missing or whitespace-only. -/
def missingDescCodes (errs : List (Nat × String)) : List Nat :=
  (errs.filter (fun e => pstrip e.2.data = [])).map (fun e => e.1)

/-- `check_descriptions` messages: the first ten offenders, then a
count of the remainder. -/
def check_descriptions (errs : List (Nat × String)) : List String :=
  let missing := missingDescCodes errs
  if missing = [] then []
  else
    String.mk (("❌ Error codes missing descriptions: ").data ++
        pyReprNatList (missing.take 10)) ::
      (if 10 < missing.length then
        [String.mk (("   ... and ").data ++ natRepr (missing.length - 10) ++ (" more").data)]
      else [])

/-- The gap triples `(start, end, gap)` of `check_code_ranges` (lines
101-110): adjacent sorted codes more than 20 apart. -/
def gapTriplesAux : List Nat → List (Nat × Nat × Nat)
  | a :: b :: rest =>
    if 20 < b - a then (a, b, b - a) :: gapTriplesAux (b :: rest)
    else gapTriplesAux (b :: rest)
  | _ => []

/-- All large gaps of a code list. -/
def gapTriples (codes : List Nat) : List (Nat × Nat × Nat) :=
  gapTriplesAux (sortNat codes)

/-- One line of gap output (line 115). -/
def gapLine (t : Nat × Nat × Nat) : String :=
  String.mk (("   Gap of ").data ++ natRepr t.2.2 ++ (" between r(").data ++
    natRepr t.1 ++ (") and r(").data ++ natRepr t.2.1 ++ [')'])

/-- `check_code_ranges` (lines 101-120): advisory warnings only. -/
def check_code_ranges (codes : List Nat) : List String :=
  let gaps := gapTriples codes
  if gaps = [] then []
  else
    "⚠️  Large gaps in error codes detected:" ::
      (gaps.take 5).map gapLine ++
      (if 5 < gaps.length then
        [String.mk (("   ... and ").data ++ natRepr (gaps.length - 5) ++ (" more gaps").data)]
      else []) ++
      ["   (This might be normal, but verify against PDF)"]

/-- `check_file_consistency` (lines 123-142) on the two artifacts' code
lists; set differences are reported sorted, first ten each. -/
def check_file_consistency (jsonCodes csvCodes : List Nat) : List String :=
  let onlyJson := sortNat (dedupNatAux [] (jsonCodes.filter (fun c => !(csvCodes.contains c))))
  let onlyCsv := sortNat (dedupNatAux [] (csvCodes.filter (fun c => !(jsonCodes.contains c))))
  (if onlyJson = [] then []
   else [String.mk (("❌ Codes in JSON but not CSV: ").data ++ pyReprNatList (onlyJson.take 10))]) ++
  (if onlyCsv = [] then []
   else [String.mk (("❌ Codes in CSV but not JSON: ").data ++ pyReprNatList (onlyCsv.take 10))])

/-- The error findings that `main` accumulates (validate_extraction.py
lines 228-234), over the JSON records `(code, description)` and the CSV
code list. -/
def validateAllErrors (jsonErrs : List (Nat × String)) (csvCodes : List Nat) : List String :=
  let codes := jsonErrs.map (fun e => e.1)
  check_required_codes codes ++ check_duplicates codes ++
    check_descriptions jsonErrs ++ check_file_consistency codes csvCodes

/-- The advisory warnings that `main` accumulates (line 236). -/
def validateAllWarnings (jsonErrs : List (Nat × String)) : List String :=
  check_code_ranges (jsonErrs.map (fun e => e.1))

/-- The exit status of `main` (lines 257-271): 1 exactly when some error
finding exists; warnings never contribute. -/
def validateStatus (jsonErrs : List (Nat × String)) (csvCodes : List Nat) : Nat :=
  if validateAllErrors jsonErrs csvCodes = [] then 0 else 1

/-! ## Concrete example inputs used by the theorems -/

/-- The end-to-end scenario input of the specification. -/
def c5Input : String :=
  "## r(1) - Generic error\n\nCatchall error code.\n\n## r(199) - Unrecognized command\n\nThe command could not be parsed."

/-- A table row whose description cell holds only whitespace. -/
def exTableEmptyDesc : String := "| 1 | n |  |"

/-- A minimal header document. -/
def exHdrSimple : String := "## r(1) - Generic error\n\nCatchall."

/-- A numbered-list-only document (no headers, no table rows, no inline
`r(...)` markers). -/
def exNumberedTwo : String := " 1. first error\n 2. second error"

/-- Another numbered-list-only document. -/
def exNumSimple : String := "1. alpha\n2. beta"

/-- An inline-form document whose trailing text is a single period. -/
def exInlineDot : String := "r(5)."

/-- The trailing rest of `exInlineDot` after the inline match. -/
def exDotRest : String := "."

/-- Duplicate manual references differing only in internal whitespace. -/
def exRefsDup : String := "[D] append [D]   append"

/-- A numbered item whose first line exceeds 100 characters and starts
with a period. -/
def c7Input : String :=
  String.mk ((" 1. ").data ++ '.' :: List.replicate 100 'a')

/-- A short line for the name-derivation witness. -/
def exShort : String := "short"

/-- Validator scenario records: required code 601 missing, codes 603 and
608 five apart. -/
def exValErrs : List (Nat × String) :=
  [(1, "a"), (198, "b"), (199, "c"), (603, "d"), (608, "e"), (950, "f")]

/-- Validator scenario CSV code list, matching `exValErrs`. -/
def exValCsv : List Nat := [1, 198, 199, 603, 608, 950]

/-! ## Lemmas about sorting and deduplication -/

theorem mem_insertByCode {a r : StataErrorCode} {l : List StataErrorCode} :
    a ∈ insertByCode r l ↔ a = r ∨ a ∈ l := by
  induction l with
  | nil => simp [insertByCode]
  | cons s t ih =>
    simp only [insertByCode]
    split
    · simp [List.mem_cons]
    · simp only [List.mem_cons, ih]
      tauto

theorem mem_sortByCode {a : StataErrorCode} {l : List StataErrorCode} :
    a ∈ sortByCode l ↔ a ∈ l := by
  induction l with
  | nil => simp [sortByCode]
  | cons r t ih =>
    simp only [sortByCode, mem_insertByCode, ih, List.mem_cons]

theorem pairwise_insertByCode {r : StataErrorCode} {l : List StataErrorCode}
    (h : l.Pairwise (fun a b => a.code ≤ b.code)) :
    (insertByCode r l).Pairwise (fun a b => a.code ≤ b.code) := by
  induction l with
  | nil => simp [insertByCode]
  | cons s t ih =>
    rw [List.pairwise_cons] at h
    simp only [insertByCode]
    split
    · rename_i hle
      refine List.Pairwise.cons ?_ (List.Pairwise.cons h.1 h.2)
      intro b hb
      rcases List.mem_cons.mp hb with rfl | hb
      · exact hle
      · exact le_trans hle (h.1 b hb)
    · rename_i hnle
      refine List.Pairwise.cons ?_ (ih h.2)
      intro b hb
      rcases mem_insertByCode.mp hb with rfl | hb
      · omega
      · exact h.1 b hb

theorem pairwise_sortByCode (l : List StataErrorCode) :
    (sortByCode l).Pairwise (fun a b => a.code ≤ b.code) := by
  induction l with
  | nil => simp [sortByCode]
  | cons r t ih => exact pairwise_insertByCode ih

theorem dedup_sublist (seen : List Nat) (l : List StataErrorCode) :
    (dedupByCodeAux seen l).Sublist l := by
  induction l generalizing seen with
  | nil => simp [dedupByCodeAux]
  | cons r rs ih =>
    simp only [dedupByCodeAux]
    split
    · exact (ih seen).cons r
    · exact (ih (r.code :: seen)).cons₂ r

theorem dedup_codes_spec (l : List StataErrorCode) : ∀ seen : List Nat,
    ((dedupByCodeAux seen l).map (fun r => r.code)).Nodup ∧
      ∀ r ∈ dedupByCodeAux seen l, r.code ∉ seen := by
  induction l with
  | nil => intro seen; simp [dedupByCodeAux]
  | cons r rs ih =>
    intro seen
    simp only [dedupByCodeAux]
    split
    · exact ⟨(ih seen).1, fun s hs => (ih seen).2 s hs⟩
    · rename_i hmem
      obtain ⟨h1, h2⟩ := ih (r.code :: seen)
      refine ⟨?_, ?_⟩
      · simp only [List.map_cons, List.nodup_cons]
        refine ⟨?_, h1⟩
        intro hc
        rcases List.mem_map.mp hc with ⟨s, hs, hcode⟩
        exact (h2 s hs) (by simp [hcode])
      · intro s hs
        rcases List.mem_cons.mp hs with rfl | hs
        · exact hmem
        · exact fun hseen => (h2 s hs) (List.mem_cons_of_mem _ hseen)

theorem pairwise_lt_of_le_nodup :
    ∀ l : List StataErrorCode,
      l.Pairwise (fun a b => a.code ≤ b.code) →
      (l.map (fun r => r.code)).Nodup →
      l.Pairwise (fun a b => a.code < b.code) := by
  intro l
  induction l with
  | nil => simp
  | cons r rs ih =>
    intro hle hnd
    rw [List.pairwise_cons] at hle ⊢
    simp only [List.map_cons, List.nodup_cons] at hnd
    refine ⟨?_, ih hle.2 hnd.2⟩
    intro b hb
    have h1 := hle.1 b hb
    have h2 : ¬ r.code = b.code := by
      intro he
      exact hnd.1 (he ▸ List.mem_map_of_mem (fun s => s.code) hb)
    omega

/-! ## Lemmas about record categories -/

theorem cat_sec1Record (c : Nat) (n scope : List Char) :
    (sec1Record c n scope).category = assignCategory (sec1Record c n scope).code := rfl

theorem cat_sectionsToRecords (full : List Char) :
    ∀ secs r, r ∈ sectionsToRecords full secs →
      r.category = assignCategory r.code := by
  intro secs
  induction secs with
  | nil => simp [sectionsToRecords]
  | cons s rest ih =>
    obtain ⟨code, name, sp⟩ := s
    intro r hr
    simp only [sectionsToRecords] at hr
    rcases List.mem_cons.mp hr with rfl | hr
    · exact cat_sec1Record _ _ _
    · exact ih r hr

theorem cat_strategy1 (cs : List Char) :
    ∀ r ∈ strategy1 cs, r.category = assignCategory r.code :=
  fun r hr => cat_sectionsToRecords cs (scanHeaders cs) r hr

theorem cat_strategy2 (cs : List Char) :
    ∀ r ∈ strategy2 cs, r.category = assignCategory r.code := by
  intro r hr
  rcases List.mem_map.mp hr with ⟨m, _, rfl⟩
  rfl

theorem cat_numRecord (full : List Char) (m : Nat × Nat × Nat × List Char)
    (nextStart : Nat) :
    (numRecord full m nextStart).category =
      assignCategory (numRecord full m nextStart).code := rfl

theorem cat_numToRecords (full : List Char) :
    ∀ ms r, r ∈ numToRecords full ms →
      r.category = assignCategory r.code := by
  intro ms
  induction ms with
  | nil => simp [numToRecords]
  | cons m rest ih =>
    intro r hr
    simp only [numToRecords] at hr
    rcases List.mem_cons.mp hr with rfl | hr
    · exact cat_numRecord _ _ _
    · exact ih r hr

theorem cat_strategy3 (cs : List Char) :
    ∀ r ∈ strategy3 cs, r.category = assignCategory r.code :=
  fun r hr => cat_numToRecords cs (scanNumbered cs) r hr

theorem cat_strategy4 (cs : List Char) :
    ∀ r ∈ strategy4 cs, r.category = assignCategory r.code := by
  intro r hr
  rcases List.mem_map.mp hr with ⟨m, _, rfl⟩
  rfl

theorem mem_parseRaw_cases {cs : List Char} {r : StataErrorCode}
    (hr : r ∈ parseRawChars cs) :
    r ∈ strategy1 cs ∨ r ∈ strategy2 cs ∨ r ∈ strategy3 cs ∨ r ∈ strategy4 cs := by
  simp only [parseRawChars] at hr
  repeat' split at hr
  all_goals tauto

theorem mem_parse_mem_raw {cs : List Char} {r : StataErrorCode}
    (h : r ∈ parseErrorCodesChars cs) : r ∈ parseRawChars cs :=
  mem_sortByCode.mp ((dedup_sublist [] (sortByCode (parseRawChars cs))).subset h)

theorem cat_parse (cs : List Char) :
    ∀ r ∈ parseErrorCodesChars cs, r.category = assignCategory r.code := by
  intro r hr
  rcases mem_parseRaw_cases (mem_parse_mem_raw hr) with h | h | h | h
  · exact cat_strategy1 cs r h
  · exact cat_strategy2 cs r h
  · exact cat_strategy3 cs r h
  · exact cat_strategy4 cs r h

/-! ## Lemmas about the category table -/

theorem assignCategory_eq_lookup : ∀ n : Nat,
    assignCategory n = lookupCat categoryIntervals n := by
  intro n
  rfl

theorem lookupCat_mem_labels : ∀ (l : List (Nat × Nat × String)) (n : Nat),
    lookupCat l n ∈ "Other" :: l.map (fun t => t.2.2) := by
  intro l
  induction l with
  | nil => intro n; simp [lookupCat]
  | cons t rest ih =>
    obtain ⟨lo, hi, lab⟩ := t
    intro n
    simp only [lookupCat]
    split
    · simp
    · have := ih n
      simp only [List.mem_cons, List.map_cons] at this ⊢
      tauto

theorem categoryIntervals_disjoint :
    categoryIntervals.Pairwise (fun a b => a.2.1 < b.1 ∨ b.2.1 < a.1) := by
  decide

theorem lookupCat_unique_gen :
    ∀ (l : List (Nat × Nat × String)) (n : Nat) (t : Nat × Nat × String),
      l.Pairwise (fun a b => a.2.1 < b.1 ∨ b.2.1 < a.1) →
      t ∈ l → t.1 ≤ n → n ≤ t.2.1 →
      lookupCat l n = t.2.2 := by
  intro l
  induction l with
  | nil => simp
  | cons s rest ih =>
    intro n t hpw ht h1 h2
    obtain ⟨lo, hi, lab⟩ := s
    rw [List.pairwise_cons] at hpw
    simp only [lookupCat]
    rcases List.mem_cons.mp ht with rfl | ht
    · simp only at h1 h2
      rw [if_pos ⟨h1, h2⟩]
    · rw [if_neg ?_]
      · exact ih n t hpw.2 ht h1 h2
      · intro hcon
        rcases hpw.1 t ht with h | h <;> simp only at h <;> omega

theorem lookupCat_unique : ∀ (n : Nat) (t : Nat × Nat × String),
    t ∈ categoryIntervals → t.1 ≤ n → n ≤ t.2.1 →
    lookupCat categoryIntervals n = t.2.2 :=
  fun n t ht h1 h2 =>
    lookupCat_unique_gen categoryIntervals n t categoryIntervals_disjoint ht h1 h2

/-! ## Lemmas: whitespace normalization preserves non-whitespace content -/

theorem exists_mem_collapseWSAux {c : Char} (hc : ¬ pyIsSpace c = true) :
    ∀ (l : List Char) (b : Bool), c ∈ l → c ∈ collapseWSAux b l := by
  intro l
  induction l with
  | nil => simp
  | cons d t ih =>
    intro b hmem
    simp only [collapseWSAux]
    rcases List.mem_cons.mp hmem with rfl | hmem
    · simp only [hc, ite_false, if_neg]
      · exact List.mem_cons_self _ _
    · split
      · split
        · exact ih true hmem
        · exact List.mem_cons_of_mem _ (ih true hmem)
      · exact List.mem_cons_of_mem _ (ih false hmem)

theorem mem_dropWhile_of_not_space {c : Char} (hc : ¬ pyIsSpace c = true) :
    ∀ l : List Char, c ∈ l → c ∈ l.dropWhile pyIsSpace := by
  intro l
  induction l with
  | nil => simp
  | cons d t ih =>
    intro hmem
    rw [List.dropWhile_cons]
    rcases List.mem_cons.mp hmem with rfl | hmem
    · simp [hc]
    · split
      · exact ih hmem
      · exact List.mem_cons_of_mem _ hmem

theorem pstrip_ne_nil {l : List Char} {c : Char} (hmem : c ∈ l)
    (hc : ¬ pyIsSpace c = true) : ¬ pstrip l = [] := by
  have h1 : c ∈ l.dropWhile pyIsSpace := mem_dropWhile_of_not_space hc l hmem
  have h2 : c ∈ (l.dropWhile pyIsSpace).reverse := List.mem_reverse.mpr h1
  have h3 : c ∈ (l.dropWhile pyIsSpace).reverse.dropWhile pyIsSpace :=
    mem_dropWhile_of_not_space hc _ h2
  intro hnil
  have : c ∈ pstrip l := by
    unfold pstrip
    exact List.mem_reverse.mpr h3
  rw [hnil] at this
  exact List.not_mem_nil c this

theorem pySplitAux_words : ∀ (l acc : List Char),
    (∀ c ∈ acc, ¬ pyIsSpace c = true) →
    ∀ w ∈ pySplitAux l acc, w ≠ [] ∧ ∀ c ∈ w, ¬ pyIsSpace c = true := by
  intro l
  induction l with
  | nil =>
    intro acc hacc w hw
    simp only [pySplitAux] at hw
    split at hw
    · simp at hw
    · rename_i hne
      simp only [List.mem_singleton] at hw
      subst hw
      refine ⟨by simpa using hne, ?_⟩
      intro c hc
      exact hacc c (List.mem_reverse.mp hc)
  | cons d t ih =>
    intro acc hacc w hw
    simp only [pySplitAux] at hw
    split at hw
    · split at hw
      · exact ih [] (by simp) w hw
      · rename_i hsp hne
        rcases List.mem_cons.mp hw with rfl | hw
        · refine ⟨by simpa using hne, ?_⟩
          intro c hc
          exact hacc c (List.mem_reverse.mp hc)
        · exact ih [] (by simp) w hw
    · rename_i hsp
      refine ih (d :: acc) ?_ w hw
      intro c hc
      rcases List.mem_cons.mp hc with rfl | hc
      · exact hsp
      · exact hacc c hc

theorem joinSpace_has_nonspace : ∀ ws : List (List Char),
    (∀ w ∈ ws, w ≠ [] ∧ ∀ c ∈ w, ¬ pyIsSpace c = true) →
    ws ≠ [] → ∃ c ∈ joinSpace ws, ¬ pyIsSpace c = true := by
  intro ws hws hne
  match ws, hne with
  | [w], _ =>
    obtain ⟨hw, hcs⟩ := hws w (by simp)
    obtain ⟨c, hc⟩ := List.exists_mem_of_ne_nil w hw
    exact ⟨c, by simpa [joinSpace] using hc, hcs c hc⟩
  | w :: w2 :: rest, _ =>
    obtain ⟨hw, hcs⟩ := hws w (by simp)
    obtain ⟨c, hc⟩ := List.exists_mem_of_ne_nil w hw
    refine ⟨c, ?_, hcs c hc⟩
    simp only [joinSpace]
    exact List.mem_append_left _ hc

theorem normWSStr_ne_empty_of_nonspace {s : String} {c : Char}
    (hmem : c ∈ s.data) (hc : ¬ pyIsSpace c = true) : ¬ normWSStr s = "" := by
  intro he
  have hdata : pstrip (collapseWS s.data) = [] := congrArg String.data he
  have h1 : c ∈ collapseWS s.data := exists_mem_collapseWSAux hc s.data false hmem
  exact pstrip_ne_nil h1 hc hdata

/-! ## Lemmas about header-strategy descriptions -/

theorem sec1Record_description_def (c : Nat) (n scope : List Char) :
    (sec1Record c n scope).description =
      normWSStr (if hdrClean scope = [] then "No description available"
        else String.mk (hdrClean scope)) := rfl

theorem sec1Record_default_sentinel (c : Nat) (n scope : List Char)
    (h : hdrClean scope = []) :
    (sec1Record c n scope).description = "No description available" := by
  rw [sec1Record_description_def, if_pos h]
  decide

theorem sec1Record_description_ne_empty (c : Nat) (n scope : List Char) :
    ¬ (sec1Record c n scope).description = "" := by
  rw [sec1Record_description_def]
  by_cases hd : hdrClean scope = []
  · rw [if_pos hd]
    decide
  · rw [if_neg hd]
    have hws : pySplit (stripDashLines (pstrip scope)) ≠ [] := by
      intro h
      apply hd
      unfold hdrClean
      rw [h]
      rfl
    obtain ⟨ch, hch, hchs⟩ := joinSpace_has_nonspace _
      (pySplitAux_words _ [] (by simp)) hws
    exact normWSStr_ne_empty_of_nonspace hch hchs

theorem sectionsToRecords_description_ne_empty (full : List Char) :
    ∀ secs r, r ∈ sectionsToRecords full secs → ¬ r.description = "" := by
  intro secs
  induction secs with
  | nil => simp [sectionsToRecords]
  | cons s rest ih =>
    obtain ⟨code, name, sp⟩ := s
    intro r hr
    simp only [sectionsToRecords] at hr
    rcases List.mem_cons.mp hr with rfl | hr
    · exact sec1Record_description_ne_empty _ _ _
    · exact ih r hr

/-! ## Lemmas about the reference-key deduplication -/

theorem dedupStr_sublist (l : List String) : ∀ seen,
    (dedupStrAux seen l).Sublist l := by
  induction l with
  | nil => intro seen; simp [dedupStrAux]
  | cons k ks ih =>
    intro seen
    simp only [dedupStrAux]
    split
    · exact (ih seen).cons k
    · exact (ih (k :: seen)).cons₂ k

theorem dedupStr_nodup (l : List String) : ∀ seen,
    (dedupStrAux seen l).Nodup ∧ ∀ k ∈ dedupStrAux seen l, k ∉ seen := by
  induction l with
  | nil => intro seen; simp [dedupStrAux]
  | cons k ks ih =>
    intro seen
    simp only [dedupStrAux]
    split
    · exact ⟨(ih seen).1, fun s hs => (ih seen).2 s hs⟩
    · rename_i hmem
      obtain ⟨h1, h2⟩ := ih (k :: seen)
      refine ⟨List.nodup_cons.mpr ⟨?_, h1⟩, ?_⟩
      · intro hc
        exact (h2 k hc) (List.mem_cons_self _ _)
      · intro s hs
        rcases List.mem_cons.mp hs with rfl | hs
        · exact hmem
        · exact fun hseen => (h2 s hs) (List.mem_cons_of_mem _ hseen)

theorem dedupStr_mem_of (l : List String) : ∀ seen k, k ∈ l → k ∉ seen →
    k ∈ dedupStrAux seen l := by
  induction l with
  | nil => simp
  | cons k' ks ih =>
    intro seen k hk hseen
    simp only [dedupStrAux]
    split
    · rename_i hk'
      rcases List.mem_cons.mp hk with rfl | hk
      · exact absurd hk' hseen
      · exact ih seen k hk hseen
    · rcases eq_or_ne k k' with rfl | hne
      · exact List.mem_cons_self _ _
      · rcases List.mem_cons.mp hk with rfl | hk
        · exact absurd rfl hne
        · refine List.mem_cons_of_mem _ (ih (k' :: seen) k hk ?_)
          intro hc
          rcases List.mem_cons.mp hc with rfl | hc
          · exact hne rfl
          · exact hseen hc

theorem extractRefs_mem_iff (full : List Char) (k : String) :
    k ∈ extractRefs full ↔ k ∈ extractRefsRaw full := by
  constructor
  · intro h
    exact (dedupStr_sublist (extractRefsRaw full) []).subset h
  · intro h
    exact dedupStr_mem_of (extractRefsRaw full) [] k h (List.not_mem_nil k)

/-! ## Lemmas about the numbered-list name derivation -/

theorem dropWhile_period {l : List Char} (hp : '.' ∈ l) :
    ∃ t, l.dropWhile (fun c => !(c == '.')) = '.' :: t := by
  induction l with
  | nil => simp at hp
  | cons d t ih =>
    rw [List.dropWhile_cons]
    rcases eq_or_ne d '.' with rfl | hne
    · simp
    · rw [if_pos (by simp [hne])]
      refine ih ?_
      rcases List.mem_cons.mp hp with rfl | hp
      · exact absurd rfl hne
      · exact hp

theorem drop_takeWhile_length (p : Char → Bool) (l : List Char) :
    l.drop (l.takeWhile p).length = l.dropWhile p := by
  induction l with
  | nil => rfl
  | cons c t ih =>
    by_cases h : p c = true
    · rw [List.takeWhile_cons, if_pos h, List.dropWhile_cons, if_pos h]
      simpa using ih
    · rw [List.takeWhile_cons, if_neg h, List.dropWhile_cons, if_neg h]
      simp

theorem firstSentence_of_period {l : List Char} (hp : '.' ∈ l)
    (hh : ¬ l.head? = some '.') :
    firstSentence l = some (l.takeWhile (fun c => !(c == '.')) ++ ['.']) := by
  unfold firstSentence
  have hpre : l.takeWhile (fun c => !(c == '.')) ≠ [] := by
    cases l with
    | nil => simp at hp
    | cons c t =>
      rw [List.takeWhile_cons, if_pos]
      · simp
      · simp only [List.head?] at hh
        simp only [Bool.not_eq_true', beq_eq_false_iff_ne]
        intro hc
        exact hh (by rw [hc])
  rw [if_neg hpre, drop_takeWhile_length]
  obtain ⟨t, ht⟩ := dropWhile_period hp
  rw [ht]
  simp

theorem firstSentence_none_of {l : List Char}
    (h : l.head? = some '.' ∨ '.' ∉ l) : firstSentence l = none := by
  unfold firstSentence
  rcases h with h | h
  · cases l with
    | nil => simp at h
    | cons c t =>
      simp only [List.head?, Option.some.injEq] at h
      subst h
      simp [List.takeWhile_cons]
  · by_cases hpre : l.takeWhile (fun c => !(c == '.')) = []
    · rw [if_pos hpre]
    · rw [if_neg hpre, drop_takeWhile_length]
      have : l.dropWhile (fun c => !(c == '.')) = [] := by
        rw [List.dropWhile_eq_nil_iff]
        intro x hx
        simp only [Bool.not_eq_true', beq_eq_false_iff_ne]
        intro hc
        exact h (hc ▸ hx)
      rw [this]

/-! ## Lemmas about references fields -/

theorem refs_sec1Record (c : Nat) (n scope : List Char) :
    (sec1Record c n scope).references = none := rfl

theorem refs_sectionsToRecords (full : List Char) :
    ∀ secs r, r ∈ sectionsToRecords full secs → r.references = none := by
  intro secs
  induction secs with
  | nil => simp [sectionsToRecords]
  | cons s rest ih =>
    obtain ⟨code, name, sp⟩ := s
    intro r hr
    simp only [sectionsToRecords] at hr
    rcases List.mem_cons.mp hr with rfl | hr
    · rfl
    · exact ih r hr

/-! ## Lemmas about validator gaps and list formatting -/

theorem gapTriplesAux_gt : ∀ l : List Nat, ∀ t ∈ gapTriplesAux l, 20 < t.2.2 := by
  intro l
  induction l with
  | nil => simp [gapTriplesAux]
  | cons a t ih =>
    cases t with
    | nil => simp [gapTriplesAux]
    | cons b rest =>
      intro u hu
      simp only [gapTriplesAux] at hu
      split at hu
      · rcases List.mem_cons.mp hu with rfl | hu
        · simpa using by assumption
        · exact ih u hu
      · exact ih u hu

theorem reprJoin_contains : ∀ (l : List Nat) (a : Nat), a ∈ l →
    ∃ p q, reprJoin l = p ++ natRepr a ++ q := by
  intro l
  induction l with
  | nil => simp
  | cons x t ih =>
    intro a ha
    cases t with
    | nil =>
      simp only [List.mem_singleton] at ha
      subst ha
      exact ⟨[], [], by simp [reprJoin]⟩
    | cons y rest =>
      rcases List.mem_cons.mp ha with rfl | ha
      · exact ⟨[], ',' :: ' ' :: reprJoin (y :: rest), by simp [reprJoin]⟩
      · obtain ⟨p, q, hpq⟩ := ih a ha
        refine ⟨natRepr x ++ ',' :: ' ' :: p, q, ?_⟩
        simp [reprJoin, hpq]

/-! ## Lemma: the first strategy is empty exactly when no header matched -/

theorem strategy1_eq_nil_iff (cs : List Char) :
    strategy1 cs = [] ↔ scanHeaders cs = [] := by
  unfold strategy1
  cases h : scanHeaders cs with
  | nil => simp [sectionsToRecords]
  | cons s t =>
    obtain ⟨c, n, sp⟩ := s
    simp [sectionsToRecords]

/-! ## Claim theorems -/

/-- C1, counterexample: the claim that every record of every strategy has
a non-empty description (defaulting to a sentinel) fails on the code.  On
the tabular input `"| 1 | n |  |"` the whitespace-only description cell
yields a record whose description is the empty string, not a sentinel. -/
theorem C1_counterexample :
    (parse_error_codes_markdown exTableEmptyDesc).map (fun r => r.description) = [""] ∧
    ¬ (("" : String) = "no description available") ∧
    ¬ (("" : String) = "No description available") :=
  ⟨by decide, by decide, by decide⟩

/-- C1, amended: only the header-segmented strategy guarantees a
non-empty description; there, an empty cleaned scope falls back to the
sentinel `"No description available"`.  Records of the other strategies
may carry empty descriptions. -/
theorem C1_amended_header_description_nonempty :
    (∀ cs : List Char, ∀ r ∈ strategy1 cs, ¬ r.description = "") ∧
    (∀ (c : Nat) (n scope : List Char), hdrClean scope = [] →
      (sec1Record c n scope).description = "No description available") :=
  ⟨fun cs r hr => sectionsToRecords_description_ne_empty cs (scanHeaders cs) r hr,
   fun c n scope h => sec1Record_default_sentinel c n scope h⟩

/-- C1, witness: the amended theorem applied to a concrete header
document and to a concrete empty scope. -/
theorem C1_witness :
    ¬ (mkStataErrorCode 1 "Generic error" "Catchall." none none).description = "" ∧
    (sec1Record 5 [] []).description = "No description available" :=
  ⟨C1_amended_header_description_nonempty.1 exHdrSimple.data
      (mkStataErrorCode 1 "Generic error" "Catchall." none none) (by decide),
   C1_amended_header_description_nonempty.2 5 [] [] (by decide)⟩

/-- C2: the category classifier is a total pure function given by the
fixed interval table (first-match lookup agrees with the source's
if-chain), the intervals are pairwise disjoint so every code lies in at
most one of them and any matching interval determines the result, every
code outside the table maps to "Other", the label is never empty, every
parsed record's category equals the classifier's output for its code, and
the five quoted sample codes classify as stated. -/
theorem C2_category_classifier :
    (∀ s : String, ∀ r ∈ parse_error_codes_markdown s,
      r.category = assignCategory r.code) ∧
    (∀ n : Nat, assignCategory n = lookupCat categoryIntervals n) ∧
    categoryIntervals.Pairwise (fun a b => a.2.1 < b.1 ∨ b.2.1 < a.1) ∧
    (∀ (n : Nat) (t : Nat × Nat × String), t ∈ categoryIntervals →
      t.1 ≤ n → n ≤ t.2.1 → lookupCat categoryIntervals n = t.2.2) ∧
    (∀ n : Nat, (∀ t ∈ categoryIntervals, ¬ (t.1 ≤ n ∧ n ≤ t.2.1)) →
      assignCategory n = "Other") ∧
    (∀ n : Nat, ¬ assignCategory n = "") ∧
    assignCategory 1 = "General" ∧ assignCategory 150 = "Syntax/Command" ∧
    assignCategory 950 = "Memory/Resources" ∧
    assignCategory 9500 = "System failure" ∧ assignCategory 10000 = "Other" := by
  refine ⟨fun s => cat_parse s.data, assignCategory_eq_lookup,
    categoryIntervals_disjoint, lookupCat_unique, ?_, ?_,
    by decide, by decide, by decide, by decide, by decide⟩
  · intro n hn
    have h1 := hn (1, 99, "General") (by decide)
    have h2 := hn (100, 199, "Syntax/Command") (by decide)
    have h3 := hn (300, 399, "Previously stored result") (by decide)
    have h4 := hn (400, 499, "Statistical problems") (by decide)
    have h5 := hn (500, 599, "Matrix manipulation") (by decide)
    have h6 := hn (600, 699, "File I/O") (by decide)
    have h7 := hn (700, 799, "Operating system") (by decide)
    have h8 := hn (900, 999, "Memory/Resources") (by decide)
    have h9 := hn (1000, 1999, "System limits") (by decide)
    have h10 := hn (2000, 2999, "Non-errors (continuation)") (by decide)
    have h11 := hn (3000, 3999, "Mata runtime") (by decide)
    have h12 := hn (4000, 4999, "Class system") (by decide)
    have h13 := hn (7100, 7199, "Python runtime") (by decide)
    have h14 := hn (9000, 9999, "System failure") (by decide)
    simp only at h1 h2 h3 h4 h5 h6 h7 h8 h9 h10 h11 h12 h13 h14
    unfold assignCategory
    split_ifs <;> first | rfl | tauto
  · intro n he
    have hm := lookupCat_mem_labels categoryIntervals n
    rw [← assignCategory_eq_lookup, he] at hm
    revert hm
    decide

/-- C2, witness: the record parsed from a concrete numbered-list
document has the classifier's category for its code. -/
theorem C2_witness :
    (mkStataErrorCode 1 "alpha" "alpha" none none).category =
      assignCategory (mkStataErrorCode 1 "alpha" "alpha" none none).code :=
  C2_category_classifier.1 exNumSimple
    (mkStataErrorCode 1 "alpha" "alpha" none none) (by decide)

/-- C3: for every input text the final record list is strictly ascending
by code (hence duplicate-free), each surviving record is one of the raw
parsed records unchanged (no merging), and the final list is exactly the
stable sort by code followed by the first-wins walk of the source. -/
theorem C3_sorted_unique : ∀ s : String,
    (parse_error_codes_markdown s).Pairwise (fun a b => a.code < b.code) ∧
    ((parse_error_codes_markdown s).map (fun r => r.code)).Nodup ∧
    (∀ r ∈ parse_error_codes_markdown s, r ∈ parseRawChars s.data) ∧
    parse_error_codes_markdown s =
      dedupByCodeAux [] (sortByCode (parseRawChars s.data)) := by
  intro s
  have hle := pairwise_sortByCode (parseRawChars s.data)
  have hsub := dedup_sublist ([] : List Nat) (sortByCode (parseRawChars s.data))
  have hnd := (dedup_codes_spec (sortByCode (parseRawChars s.data)) []).1
  have hlt := pairwise_lt_of_le_nodup _ (List.Pairwise.sublist hsub hle) hnd
  exact ⟨hlt, hnd, fun r hr => mem_parse_mem_raw hr, rfl⟩

/-- C3, witness: the theorem applied to a concrete document; the first
parsed record is one of the raw records. -/
theorem C3_witness :
    (mkStataErrorCode 1 "alpha" "alpha" none none) ∈ parseRawChars exNumSimple.data :=
  (C3_sorted_unique exNumSimple).2.2.1
    (mkStataErrorCode 1 "alpha" "alpha" none none) (by decide)

/-- C4: the strategy chain is a fixed-priority fallback: the header
strategy's output is used whenever it is non-empty, the tabular strategy
only when the header strategy finds nothing, the numbered-list strategy
only when both earlier ones find nothing, and the inline strategy last;
exactly one strategy's raw output feeds the final sort/deduplication. -/
theorem C4_strategy_chain : ∀ s : String,
    (¬ strategy1 s.data = [] → parseRawChars s.data = strategy1 s.data) ∧
    (strategy1 s.data = [] → ¬ strategy2 s.data = [] →
      parseRawChars s.data = strategy2 s.data) ∧
    (strategy1 s.data = [] → strategy2 s.data = [] → ¬ strategy3 s.data = [] →
      parseRawChars s.data = strategy3 s.data) ∧
    (strategy1 s.data = [] → strategy2 s.data = [] → strategy3 s.data = [] →
      parseRawChars s.data = strategy4 s.data) ∧
    parse_error_codes_markdown s =
      dedupByCodeAux [] (sortByCode (parseRawChars s.data)) := by
  intro s
  refine ⟨?_, ?_, ?_, ?_, rfl⟩
  · intro h1
    have hs : ¬ scanHeaders s.data = [] :=
      fun hh => h1 ((strategy1_eq_nil_iff s.data).mpr hh)
    simp [parseRawChars, hs, h1]
  · intro h1 h2
    have hs : scanHeaders s.data = [] := (strategy1_eq_nil_iff s.data).mp h1
    simp [parseRawChars, hs, h2]
  · intro h1 h2 h3
    have hs : scanHeaders s.data = [] := (strategy1_eq_nil_iff s.data).mp h1
    simp [parseRawChars, hs, h2, h3]
  · intro h1 h2 h3
    have hs : scanHeaders s.data = [] := (strategy1_eq_nil_iff s.data).mp h1
    simp [parseRawChars, hs, h2, h3]

/-- C4, witness: a numbered-list-only document (no headers, no table
rows) is parsed by strategy 3 alone. -/
theorem C4_witness :
    parseRawChars exNumberedTwo.data = strategy3 exNumberedTwo.data ∧
    ¬ strategy3 exNumberedTwo.data = [] :=
  ⟨(C4_strategy_chain exNumberedTwo).2.2.1 (by decide) (by decide) (by decide),
   by decide⟩

/-- C5: evaluating the parser at the specification's end-to-end input.
The code stores `match.end()` of each header as its section boundary and
reuses the next header's stored position as this section's end, so the
first record's description swallows the whole next header line instead
of stopping at its start: the code yields
`"Catchall error code. ## r(199) - Unrecognized command"` where the
specification requires `"Catchall error code."`.  The code contradicts
its own comment ("start of next section or EOF", line 119); the claim
describes the intended behaviour, the code has the bug. -/
theorem C5_code_bug_eval :
    parse_error_codes_markdown c5Input =
      [mkStataErrorCode 1 "Generic error"
        "Catchall error code. ## r(199) - Unrecognized command" none none,
       mkStataErrorCode 199 "Unrecognized command"
        "The command could not be parsed." none none] ∧
    ¬ (mkStataErrorCode 1 "Generic error"
        "Catchall error code. ## r(199) - Unrecognized command" none none).description =
      "Catchall error code." :=
  ⟨by decide, by decide⟩

/-- C6: reference extraction is deterministic (it is a pure function of
the text), order-preserving (the output is a sublist of the raw match
keys) and first-wins deduplicating (duplicate-free, and a key is kept
exactly when it occurs among the raw keys); every emitted key has the
shape `"[MANUAL] locator"`; and on the concrete text
`"[D] append [D]   append"` both occurrences normalize to the same key
and only the first is kept. -/
theorem C6_reference_extraction :
    (∀ cs : List Char, (extractRefs cs).Nodup) ∧
    (∀ cs : List Char, (extractRefs cs).Sublist (extractRefsRaw cs)) ∧
    (∀ (cs : List Char) (k : String), k ∈ extractRefs cs ↔ k ∈ extractRefsRaw cs) ∧
    (∀ (cs : List Char) (k : String), k ∈ extractRefs cs →
      ∃ manual sect : List Char, k = String.mk ('[' :: manual ++ ']' :: ' ' :: sect)) ∧
    extractRefs exRefsDup.data = ["[D] append"] := by
  refine ⟨fun cs => (dedupStr_nodup (extractRefsRaw cs) []).1,
    fun cs => dedupStr_sublist (extractRefsRaw cs) [],
    fun cs k => extractRefs_mem_iff cs k, ?_, by decide⟩
  intro cs k hk
  have hraw : k ∈ extractRefsRaw cs := (extractRefs_mem_iff cs k).mp hk
  rcases List.mem_map.mp hraw with ⟨ms, _, rfl⟩
  exact ⟨ms.1, cleanSection ms.2, rfl⟩

/-- C6, witness: the membership characterization applied at the concrete
duplicate-reference text. -/
theorem C6_witness :
    ("[D] append" : String) ∈ extractRefsRaw exRefsDup.data :=
  (C6_reference_extraction.2.2.1 exRefsDup.data ("[D] append" : String)).mp (by decide)

/-- C7, counterexample: the claim that a first line over 100 characters
falls back to its first 80 characters only when it contains no period
fails: a 101-character line starting with a period contains a period,
yet the sentence pattern `^([^.]+\.)` cannot match (it needs a non-period
first character), so the code takes the first 80 characters instead of
the text up to the first period. -/
theorem C7_counterexample :
    (strategy3 c7Input.data).map (fun r => r.name) =
      [String.mk ('.' :: List.replicate 79 'a')] ∧
    100 < ('.' :: List.replicate 100 'a').length ∧
    '.' ∈ ('.' :: List.replicate 100 'a') ∧
    ¬ String.mk ('.' :: List.replicate 79 'a') = String.mk ['.'] :=
  ⟨by decide, by decide, by decide, by decide⟩

/-- C7, amended: in the numbered-list strategy the name is the
whitespace-collapsed, stripped first line when that is at most 100
characters; for longer lines, the prefix up to and including the first
period is used when the line has a period preceded by at least one
non-period character, and the first 80 characters otherwise — also when
the line does contain a period but starts with one. -/
theorem C7_amended_name_derivation : ∀ dfl cand : List Char,
    cand = pstrip ((collapseWS dfl).takeWhile (fun c => !(c == '\n'))) →
    (¬ 100 < cand.length → deriveName dfl = cand) ∧
    (100 < cand.length → '.' ∈ cand → ¬ cand.head? = some '.' →
      deriveName dfl = pstrip (cand.takeWhile (fun c => !(c == '.')) ++ ['.'])) ∧
    (100 < cand.length → (cand.head? = some '.' ∨ '.' ∉ cand) →
      deriveName dfl = cand.take 80) := by
  intro dfl cand hc
  subst hc
  unfold deriveName
  refine ⟨fun h => by rw [if_neg h], ?_, ?_⟩
  · intro hlen hp hh
    rw [if_pos hlen, firstSentence_of_period hp hh]
  · intro hlen h
    rw [if_pos hlen, firstSentence_none_of h]

/-- C7, witness: the amended theorem applied to a short concrete line. -/
theorem C7_witness :
    deriveName exShort.data =
      pstrip ((collapseWS exShort.data).takeWhile (fun c => !(c == '\n'))) :=
  (C7_amended_name_derivation exShort.data
    (pstrip ((collapseWS exShort.data).takeWhile (fun c => !(c == '\n')))) rfl).1
    (by decide)

/-- C8: for any record set, a missing required code 601 makes the
required-codes check report (with 601 in the reported missing list and
appearing literally in the message) and drives the exit status to 1;
every reported gap triple strictly exceeds the threshold 20, so a gap of
5 (or any gap of at most 20) is never reported; and when the four error
checks are clean the status is 0 regardless of gap warnings. -/
theorem C8_validator : ∀ (jsonErrs : List (Nat × String)) (csvCodes : List Nat),
    (¬ (jsonErrs.map (fun e => e.1)).contains 601 = true →
      601 ∈ missingRequired (jsonErrs.map (fun e => e.1)) ∧
      ¬ check_required_codes (jsonErrs.map (fun e => e.1)) = [] ∧
      (∃ m ∈ check_required_codes (jsonErrs.map (fun e => e.1)),
        ∃ p q, m.data = p ++ ("601").data ++ q) ∧
      validateStatus jsonErrs csvCodes = 1) ∧
    (∀ t ∈ gapTriples (jsonErrs.map (fun e => e.1)), 20 < t.2.2) ∧
    (∀ a b g : Nat, g ≤ 20 →
      ¬ (a, b, g) ∈ gapTriples (jsonErrs.map (fun e => e.1))) ∧
    (validateAllErrors jsonErrs csvCodes = [] →
      validateStatus jsonErrs csvCodes = 0) := by
  intro jsonErrs csvCodes
  refine ⟨?_, fun t ht => gapTriplesAux_gt _ t ht, ?_, ?_⟩
  · intro h601
    have hf : (jsonErrs.map (fun e => e.1)).contains 601 = false := by
      cases hcb : (jsonErrs.map (fun e => e.1)).contains 601
      · rfl
      · exact absurd hcb h601
    have hmem : 601 ∈ missingRequired (jsonErrs.map (fun e => e.1)) := by
      rw [missingRequired, List.mem_filter]
      exact ⟨by decide, by rw [hf]; rfl⟩
    have hne : ¬ missingRequired (jsonErrs.map (fun e => e.1)) = [] := by
      intro hnil
      rw [hnil] at hmem
      exact List.not_mem_nil _ hmem
    have hreq : check_required_codes (jsonErrs.map (fun e => e.1)) =
        [String.mk (("❌ Missing required error codes: ").data ++
          pyReprNatList (missingRequired (jsonErrs.map (fun e => e.1)))),
         "   These are commonly seen errors that MUST be documented"] := by
      rw [check_required_codes]
      simp only [hne, ite_false, if_neg, not_false_iff]
    refine ⟨hmem, by rw [hreq]; simp, ?_, ?_⟩
    · obtain ⟨p, q, hpq⟩ := reprJoin_contains _ 601 hmem
      refine ⟨String.mk (("❌ Missing required error codes: ").data ++
          pyReprNatList (missingRequired (jsonErrs.map (fun e => e.1)))),
        by rw [hreq]; exact List.mem_cons_self _ _,
        ("❌ Missing required error codes: ").data ++ '[' :: p,
        q ++ [']'], ?_⟩
      have h601r : natRepr 601 = ("601").data := by decide
      show ("❌ Missing required error codes: ").data ++
          pyReprNatList (missingRequired (jsonErrs.map (fun e => e.1))) = _
      rw [pyReprNatList, hpq, h601r]
      simp
    · rw [validateStatus, if_neg]
      intro hall
      rw [validateAllErrors] at hall
      rcases List.append_eq_nil.mp hall with ⟨hl, _⟩
      rcases List.append_eq_nil.mp hl with ⟨hl2, _⟩
      rcases List.append_eq_nil.mp hl2 with ⟨hl3, _⟩
      rw [hreq] at hl3
      simp at hl3
  · intro a b g hg hmem
    have := gapTriplesAux_gt _ _ hmem
    simp only at this
    omega
  · intro h
    rw [validateStatus, if_pos h]

/-- C8, witness: the validator theorem applied to a concrete record set
missing code 601 and containing the adjacent codes 603 and 608. -/
theorem C8_witness :
    validateStatus exValErrs exValCsv = 1 ∧
    ¬ ((603, 608, 5) : Nat × Nat × Nat) ∈ gapTriples (exValErrs.map (fun e => e.1)) :=
  ⟨((C8_validator exValErrs exValCsv).1 (by decide)).2.2.2,
   (C8_validator exValErrs exValCsv).2.2.1 603 608 5 (by decide)⟩

/-- C9: the header-segmented, tabular and inline strategies construct
every record with `references = None`, and a record with no references
omits the `references` key from its JSON dictionary. -/
theorem C9_references_only_numbered :
    (∀ cs : List Char, ∀ r ∈ strategy1 cs, r.references = none) ∧
    (∀ cs : List Char, ∀ r ∈ strategy2 cs, r.references = none) ∧
    (∀ cs : List Char, ∀ r ∈ strategy4 cs, r.references = none) ∧
    (∀ r : StataErrorCode, r.references = none →
      ¬ ("references" : String) ∈ errDictKeys r) := by
  refine ⟨fun cs r hr => refs_sectionsToRecords cs (scanHeaders cs) r hr, ?_, ?_, ?_⟩
  · intro cs r hr
    rcases List.mem_map.mp hr with ⟨m, _, rfl⟩
    rfl
  · intro cs r hr
    rcases List.mem_map.mp hr with ⟨m, _, rfl⟩
    rfl
  · intro r h
    unfold errDictKeys
    rw [h]
    decide

/-- C9, witness: the theorem applied to a concrete tabular record and
its JSON key list. -/
theorem C9_witness :
    (mkStataErrorCode 1 "n" "" none none).references = none ∧
    ¬ ("references" : String) ∈ errDictKeys (mkStataErrorCode 1 "n" "" none none) :=
  ⟨C9_references_only_numbered.2.1 exTableEmptyDesc.data
      (mkStataErrorCode 1 "n" "" none none) (by decide),
   C9_references_only_numbered.2.2.2 (mkStataErrorCode 1 "n" "" none none) rfl⟩

/-- C10, counterexample: the claim that an empty trailing part after the
split never yields an empty description fails: on input `"r(5)."` the
rest is `"."`, the period split makes both name and description empty,
and the description falls back to the (empty) name. -/
theorem C10_counterexample :
    parse_error_codes_markdown exInlineDot = [mkStataErrorCode 5 "" "" none none] ∧
    (inlineSplit (pstrip exDotRest.data)).2 = [] ∧
    (mkStataErrorCode 5 "" "" none none).description = "" :=
  ⟨by decide, by decide, by decide⟩

/-- C10, amended: in the inline strategy, whenever the trailing text
after the chosen split point is empty the record's description equals
its name (never the sentinel); the shared value may itself be empty.
Every inline record arises as `inlineRecord` of a scanned match. -/
theorem C10_amended_inline_description :
    (∀ cs : List Char, ∀ r ∈ strategy4 cs,
      ∃ m, m ∈ scanInline cs ∧ r = inlineRecord m.1 m.2.1) ∧
    (∀ (code : Nat) (g : List Char), (inlineSplit (pstrip g)).2 = [] →
      (inlineRecord code g).description = (inlineRecord code g).name) := by
  refine ⟨?_, ?_⟩
  · intro cs r hr
    rcases List.mem_map.mp hr with ⟨m, hm, rfl⟩
    exact ⟨m, hm, rfl⟩
  · intro code g h
    simp only [inlineRecord]
    rw [h]
    rfl

/-- C10, witness: the amended theorem applied to the concrete rest
`"."`. -/
theorem C10_witness :
    (inlineRecord 5 exDotRest.data).description = (inlineRecord 5 exDotRest.data).name :=
  C10_amended_inline_description.2 5 exDotRest.data (by decide)
